import Mathlib

/-! # Verification of the metaformers embedding-indexed memory core

Shallow embedding of the retrieval-augmented memory loop of the
metaformers repository: the text normalizer (`clean_text` in
`rag_chat.py` and `ingest.py`), the noise classifier (`NOISE_RE`),
and the memory-store operations `remember` / `recall`
(`rag_chat.py`, `memory_chat.py`, and the batch insert of
`ingest.py`).

Modelling conventions:
* Strings are Lean `String`s, processed through their `List Char` data.
* Machine floats (cosine distances, embedding coordinates) are modelled
  as `ℚ`.  The embedder (`SentenceTransformer.encode`) and the pgvector
  cosine-distance operator are external collaborators and appear as
  explicit function parameters `encode : String → List ℚ` and
  `dist : List ℚ → List ℚ → ℚ`.
* The `public.contexts` table is a `List MemoryRecord`; the serial `id`
  column is modelled by the current store length.  SQL
  `ORDER BY dist ASC` and Python's stable `list.sort` are modelled by
  the stable `List.insertionSort` (the spec treats the database's
  tie-break as implementation-defined but deterministic).
* Python regular-expression operations are translated operationally:
  character-class substitutions become `List.filter`, the `ANSI_RE`
  substitution becomes a left-to-right scanner over the string, and
  `NOISE_RE.search` becomes an anchored scanner.  Character classes
  cover the full ranges that appear in the source patterns; the Python
  whitespace class is modelled by its Unicode whitespace set.
-/

namespace Metaformers

/-- Python whitespace: the characters matched by the regex class `\s`
and stripped by `str.strip()` (Unicode whitespace set). -/
def isPySpace (c : Char) : Bool :=
  c == ' ' || (0x09 ≤ c.toNat && c.toNat ≤ 0x0D) ||
  (0x1C ≤ c.toNat && c.toNat ≤ 0x1F) || c == '\x85' || c.toNat == 0xA0 ||
  c.toNat == 0x1680 || (0x2000 ≤ c.toNat && c.toNat ≤ 0x200A) ||
  c.toNat == 0x2028 || c.toNat == 0x2029 || c.toNat == 0x202F ||
  c.toNat == 0x205F || c.toNat == 0x3000

/-- The control characters removed by the substitution
`re.sub(r"[\x00-\x08\x0B\x0C\x0E-\x1F]", "", s)` shared by
`rag_chat.clean_text` and `ingest.clean_text`. -/
def ctrlChar (c : Char) : Bool :=
  c.toNat ≤ 0x08 || c == '\x0b' || c == '\x0c' ||
  (0x0E ≤ c.toNat && c.toNat ≤ 0x1F)

/-- The spinner glyphs removed by `SPINNER_RE`: the braille block
U+2800–U+28FF (which contains all the explicitly listed braille frames)
together with the four circle glyphs. -/
def spinnerChar (c : Char) : Bool :=
  (0x2800 ≤ c.toNat && c.toNat ≤ 0x28FF) ||
  c == '◐' || c == '◓' || c == '◑' || c == '◒'

/-! ## The ANSI escape-sequence substitution `ANSI_RE.sub("", s)`

`ANSI_RE` is the alternation of three branches: `ESC [` followed by
parameter bytes `[0-9;?]`, then intermediate bytes 0x20–0x2F, then one
final byte `[@-~]`; or `ESC` followed by one byte of 0x40–0x5A or
0x5C–0x5F; or `ESC ]` followed by non-BEL bytes and a BEL.

`re.sub` scans left to right; at each position it tries the three
alternatives in order and, on a match, resumes after the matched text.
Every alternative starts with ESC and consumes at least two characters.
Within the first alternative the three classes are pairwise disjoint,
so the greedy scan needs no backtracking. -/

/-- Class `[0-9;?]` (CSI parameter bytes). -/
def paramByte (c : Char) : Bool := c.isDigit || c == ';' || c == '?'

/-- Class of CSI intermediate bytes, 0x20–0x2F. -/
def interByte (c : Char) : Bool := 0x20 ≤ c.toNat && c.toNat ≤ 0x2F

/-- Class `[@-~]` (CSI final bytes, 0x40–0x7E). -/
def finalByte (c : Char) : Bool := 0x40 ≤ c.toNat && c.toNat ≤ 0x7E

/-- Class `[@-Z\\-_]` of the two-character alternative: 0x40–0x5A
together with 0x5C–0x5F (every byte of 0x40–0x5F except `[`). -/
def escTwoByte (c : Char) : Bool :=
  (0x40 ≤ c.toNat && c.toNat ≤ 0x5A) || (0x5C ≤ c.toNat && c.toNat ≤ 0x5F)

/-- Remainder of the input after matching parameter bytes, then
intermediate bytes, then one final byte (the part of the first
alternative following `ESC [`), if it matches. -/
def csiTail (cs : List Char) : Option (List Char) :=
  match (cs.dropWhile paramByte).dropWhile interByte with
  | [] => none
  | c :: rest => if finalByte c then some rest else none

/-- Remainder after matching `[^\x07]*\x07` (the part of the third
alternative following `ESC ]`), if a BEL terminator exists. -/
def oscTail (cs : List Char) : Option (List Char) :=
  match cs.dropWhile (fun c => !(c == '\x07')) with
  | [] => none
  | _ :: rest => some rest

/-- Try to match `ANSI_RE` at the head of the input, returning the
remainder after the match.  The three alternatives are tried in the
order they appear in the pattern. -/
def ansiMatchAt : List Char → Option (List Char)
  | [] => none
  | [_] => none
  | c0 :: c1 :: rest =>
    if c0 == '\x1b' then
      (if c1 == '[' then csiTail rest else none) <|>
      (if escTwoByte c1 then some rest else none) <|>
      (if c1 == ']' then oscTail rest else none)
    else none

theorem csiTail_sublist {cs r : List Char} (h : csiTail cs = some r) :
    r.Sublist cs ∧ r.length < cs.length := by
  have hsub : ((cs.dropWhile paramByte).dropWhile interByte).Sublist cs :=
    (List.dropWhile_sublist _).trans (List.dropWhile_sublist _)
  unfold csiTail at h
  split at h
  · exact absurd h (by simp)
  · next c rest heq =>
    split at h
    · cases h
      rw [heq] at hsub
      exact ⟨(List.sublist_cons_self c r).trans hsub,
        Nat.lt_of_lt_of_le (Nat.lt_succ_self _)
          (by simpa using hsub.length_le)⟩
    · exact absurd h (by simp)

theorem oscTail_sublist {cs r : List Char} (h : oscTail cs = some r) :
    r.Sublist cs ∧ r.length < cs.length := by
  have hsub : (cs.dropWhile (fun c => !(c == '\x07'))).Sublist cs :=
    List.dropWhile_sublist _
  unfold oscTail at h
  split at h
  · exact absurd h (by simp)
  · next c rest heq =>
    cases h
    rw [heq] at hsub
    exact ⟨(List.sublist_cons_self c r).trans hsub,
      Nat.lt_of_lt_of_le (Nat.lt_succ_self _)
        (by simpa using hsub.length_le)⟩

theorem ansiMatchAt_sublist : ∀ (cs r : List Char),
    ansiMatchAt cs = some r → r.Sublist cs ∧ r.length < cs.length
  | [], r, h => by simp [ansiMatchAt] at h
  | [c], r, h => by simp [ansiMatchAt] at h
  | c0 :: c1 :: rest, r, h => by
    rw [ansiMatchAt] at h
    split at h
    · rcases ho : (if c1 == '[' then csiTail rest else none) with _ | r1
      · rw [ho, Option.none_orElse] at h
        rcases ho2 : (if escTwoByte c1 then some rest else none) with _ | r2
        · rw [ho2, Option.none_orElse] at h
          split at h
          · have := oscTail_sublist h
            exact ⟨(this.1.cons _).cons _, by
              have := this.2; simp only [List.length_cons]; omega⟩
          · exact absurd h (by simp)
        · rw [ho2, Option.some_orElse] at h
          cases h
          split at ho2
          · cases ho2
            exact ⟨((List.Sublist.refl _).cons _).cons _, by
              simp only [List.length_cons]; omega⟩
          · exact absurd ho2 (by simp)
      · rw [ho, Option.some_orElse] at h
        cases h
        split at ho
        · have := csiTail_sublist ho
          exact ⟨(this.1.cons _).cons _, by
            have := this.2; simp only [List.length_cons]; omega⟩
        · exact absurd ho (by simp)
    · exact absurd h (by simp)

/-- Fuelled left-to-right substitution scanner for `ANSI_RE.sub("", s)`.
The fuel only serves to make the recursion structural; `ansiSub`
supplies `cs.length`, which always suffices because every match
strictly shortens the input. -/
def ansiSubF : Nat → List Char → List Char
  | 0, cs => cs
  | _ + 1, [] => []
  | fuel + 1, c :: rest =>
    match ansiMatchAt (c :: rest) with
    | some r => ansiSubF fuel r
    | none => c :: ansiSubF fuel rest

/-- `ANSI_RE.sub("", s)` on character lists. -/
def ansiSub (cs : List Char) : List Char := ansiSubF cs.length cs

theorem ansiSubF_sublist : ∀ (fuel : Nat) (cs : List Char),
    (ansiSubF fuel cs).Sublist cs
  | 0, cs => by simp [ansiSubF]
  | _ + 1, [] => by simp [ansiSubF]
  | fuel + 1, c :: rest => by
    rw [ansiSubF]
    split
    · next r hm =>
      exact (ansiSubF_sublist fuel r).trans (ansiMatchAt_sublist _ _ hm).1
    · exact (ansiSubF_sublist fuel rest).cons₂ c

theorem ansiSub_sublist (cs : List Char) : (ansiSub cs).Sublist cs :=
  ansiSubF_sublist _ cs

/-- If the head of the input is not ESC, no alternative of `ANSI_RE`
matches there. -/
theorem ansiMatchAt_eq_none {c : Char} {rest : List Char}
    (h : ¬(c = '\x1b')) : ansiMatchAt (c :: rest) = none := by
  match rest with
  | [] => rfl
  | c1 :: rest2 =>
    rw [ansiMatchAt, if_neg (by simpa using h)]

/-- The ANSI substitution is the identity on ESC-free input. -/
theorem ansiSubF_eq_self : ∀ (fuel : Nat) (cs : List Char),
    (∀ c ∈ cs, ¬(c = '\x1b')) → ansiSubF fuel cs = cs
  | 0, cs, _ => rfl
  | _ + 1, [], _ => rfl
  | fuel + 1, c :: rest, h => by
    rw [ansiSubF, ansiMatchAt_eq_none (h c (by simp))]
    simp only [List.cons.injEq, true_and]
    exact ansiSubF_eq_self fuel rest (fun x hx => h x (by simp [hx]))

theorem ansiSub_eq_self {cs : List Char}
    (h : ∀ c ∈ cs, ¬(c = '\x1b')) : ansiSub cs = cs :=
  ansiSubF_eq_self _ cs h

/-! ## `str.strip()` -/

/-- `str.lstrip()` on character lists. -/
def stripLeftL (cs : List Char) : List Char := cs.dropWhile isPySpace

/-- `str.rstrip()` on character lists. -/
def stripRightL (cs : List Char) : List Char :=
  (cs.reverse.dropWhile isPySpace).reverse

/-- `str.strip()` on character lists. -/
def pyStrip (cs : List Char) : List Char := stripRightL (stripLeftL cs)

theorem mem_stripLeftL {c : Char} {cs : List Char}
    (h : c ∈ stripLeftL cs) : c ∈ cs :=
  (List.dropWhile_sublist _).mem h

theorem mem_stripRightL {c : Char} {cs : List Char}
    (h : c ∈ stripRightL cs) : c ∈ cs := by
  unfold stripRightL at h
  rw [List.mem_reverse] at h
  simpa using (List.dropWhile_sublist _).mem h

theorem mem_pyStrip {c : Char} {cs : List Char}
    (h : c ∈ pyStrip cs) : c ∈ cs :=
  mem_stripLeftL (mem_stripRightL h)

theorem dropWhile_dropWhile_self {α : Type} (p : α → Bool) :
    ∀ l : List α, List.dropWhile p (List.dropWhile p l) = List.dropWhile p l
  | [] => rfl
  | c :: rest => by
    rw [List.dropWhile_cons]
    split
    · exact dropWhile_dropWhile_self p rest
    · next hp => rw [List.dropWhile_cons, if_neg hp]

theorem dropWhile_head_not {α : Type} {p : α → Bool} :
    ∀ {l c t}, List.dropWhile p l = c :: t → p c = false
  | [], c, t, h => by simp at h
  | x :: rest, c, t, h => by
    rw [List.dropWhile_cons] at h
    split at h
    · exact dropWhile_head_not h
    · next hp => cases h; simpa using hp

theorem stripRightL_idem (cs : List Char) :
    stripRightL (stripRightL cs) = stripRightL cs := by
  unfold stripRightL
  rw [List.reverse_reverse, dropWhile_dropWhile_self]

/-- `stripRightL` yields a prefix of its input. -/
theorem stripRightL_isPre (cs : List Char) : stripRightL cs <+: cs := by
  have h : cs.reverse.dropWhile isPySpace <:+ cs.reverse :=
    List.dropWhile_suffix _
  have := List.reverse_prefix.mpr (by simpa using h)
  simpa using this

theorem stripLeftL_stripRightL_stripLeftL (cs : List Char) :
    stripLeftL (stripRightL (stripLeftL cs)) = stripRightL (stripLeftL cs) := by
  rcases heq : stripRightL (stripLeftL cs) with _ | ⟨c, t⟩
  · rfl
  · obtain ⟨u, hu⟩ := stripRightL_isPre (stripLeftL cs)
    rw [heq] at hu
    have hc : isPySpace c = false := by
      have : List.dropWhile isPySpace cs = c :: (t ++ u) := by
        simpa [stripLeftL] using hu.symm
      exact dropWhile_head_not this
    unfold stripLeftL
    rw [List.dropWhile_cons, if_neg (by simp [hc])]

theorem pyStrip_idem (cs : List Char) : pyStrip (pyStrip cs) = pyStrip cs := by
  unfold pyStrip
  rw [stripLeftL_stripRightL_stripLeftL, stripRightL_idem]

/-! ## The cleaning pipelines `clean_text` -/

/-- The part shared by `rag_chat.clean_text` and `ingest.clean_text`:
drop NUL bytes (the `s.replace` with the NUL byte), strip ANSI
sequences, strip spinner glyphs, then drop the remaining control
characters — in the order the source applies them. -/
def cleanCore (cs : List Char) : List Char :=
  ((ansiSub (cs.filter (fun c => !(c == '\x00')))).filter
      (fun c => !(spinnerChar c))).filter (fun c => !(ctrlChar c))

namespace RagChat

/-- `rag_chat.clean_text`: NUL removal, ANSI removal, spinner removal,
control-character removal, then `strip()`.  Unlike `ingest.clean_text`
there is no carriage-return removal step, and the carriage return is
outside the control-character class of the shared substitution. -/
def clean_text (s : String) : String := ⟨pyStrip (cleanCore s.data)⟩

end RagChat

namespace Ingest

/-- `ingest.EMB_DIM`: the configured embedding dimensionality. -/
def EMB_DIM : Nat := 384

/-- `ingest.clean_text`: like `rag_chat.clean_text` but with the
`s.replace` dropping carriage returns applied between the
control-character removal and the final `strip()`. -/
def clean_text (s : String) : String :=
  ⟨pyStrip ((cleanCore s.data).filter (fun c => !(c == '\r')))⟩

end Ingest

theorem mem_cleanCore {c : Char} {cs : List Char} (h : c ∈ cleanCore cs) :
    ctrlChar c = false ∧ spinnerChar c = false := by
  unfold cleanCore at h
  rw [List.mem_filter] at h
  obtain ⟨h1, hp2⟩ := h
  rw [List.mem_filter] at h1
  exact ⟨by simpa using hp2, by simpa using h1.2⟩

theorem cleanCore_eq_self_of {cs : List Char}
    (h : ∀ c ∈ cs, ctrlChar c = false ∧ spinnerChar c = false) :
    cleanCore cs = cs := by
  have hnul : cs.filter (fun c => !(c == '\x00')) = cs :=
    List.filter_eq_self.mpr (fun c hc => by
      have h1 := (h c hc).1
      by_cases hx : c = '\x00'
      · subst hx; exact absurd (by decide : ctrlChar '\x00' = true) (by simp [h1])
      · simp [hx])
  have hesc : ansiSub cs = cs :=
    ansiSub_eq_self (fun c hc hx => by
      have h1 := (h c hc).1
      subst hx
      exact absurd (by decide : ctrlChar '\x1b' = true) (by simp [h1]))
  have hspin : cs.filter (fun c => !(spinnerChar c)) = cs :=
    List.filter_eq_self.mpr (fun c hc => by simp [(h c hc).2])
  have hctrl : cs.filter (fun c => !(ctrlChar c)) = cs :=
    List.filter_eq_self.mpr (fun c hc => by simp [(h c hc).1])
  unfold cleanCore
  rw [hnul, hesc, hspin, hctrl]

theorem ragClean_data (s : String) :
    (RagChat.clean_text s).data = pyStrip (cleanCore s.data) := rfl

theorem ingestClean_data (s : String) :
    (Ingest.clean_text s).data
      = pyStrip ((cleanCore s.data).filter (fun c => !(c == '\r'))) := rfl

/-- `C5`: both text cleaners are idempotent — cleaning an
already-clean string returns the same string. -/
theorem C5_clean_text_idempotent :
    (∀ s : String, RagChat.clean_text (RagChat.clean_text s) = RagChat.clean_text s) ∧
    (∀ s : String, Ingest.clean_text (Ingest.clean_text s) = Ingest.clean_text s) := by
  constructor
  · intro s
    apply String.ext
    simp only [ragClean_data]
    have hmem : ∀ c ∈ pyStrip (cleanCore s.data),
        ctrlChar c = false ∧ spinnerChar c = false :=
      fun c hc => mem_cleanCore (mem_pyStrip hc)
    rw [cleanCore_eq_self_of hmem, pyStrip_idem]
  · intro s
    apply String.ext
    simp only [ingestClean_data]
    have hmem0 : ∀ c ∈ pyStrip ((cleanCore s.data).filter (fun c => !(c == '\r'))),
        c ∈ cleanCore s.data ∧ (!(c == '\r')) = true :=
      fun c hc => List.mem_filter.mp (mem_pyStrip hc)
    have hcore : cleanCore (pyStrip ((cleanCore s.data).filter
        (fun c => !(c == '\r')))) = pyStrip ((cleanCore s.data).filter
        (fun c => !(c == '\r'))) :=
      cleanCore_eq_self_of (fun c hc => mem_cleanCore (hmem0 c hc).1)
    have hcr : (pyStrip ((cleanCore s.data).filter
          (fun c => !(c == '\r')))).filter (fun c => !(c == '\r'))
        = pyStrip ((cleanCore s.data).filter (fun c => !(c == '\r'))) :=
      List.filter_eq_self.mpr (fun c hc => (hmem0 c hc).2)
    rw [hcore, hcr, pyStrip_idem]

/-- `C8` counterexample: `rag_chat.clean_text` does not strip carriage
returns — on the input `"a\rb"` the cleaned output still contains the
carriage-return character, refuting the claim for the cleaner of
`rag_chat.py`. -/
theorem C8_counterexample :
    RagChat.clean_text "a\rb" = "a\rb" ∧ '\r' ∈ (RagChat.clean_text "a\rb").data := by
  constructor
  · rfl
  · decide

/-- `C8` (amended): `ingest.clean_text` output never contains a
carriage return, and both cleaners remove null bytes, the control
characters of the shared class, and spinner glyphs; `rag_chat.clean_text`
however retains interior carriage returns. -/
theorem C8_clean_text_no_cr :
    ∀ s : String,
      ('\r' ∉ (Ingest.clean_text s).data) ∧
      ('\x00' ∉ (RagChat.clean_text s).data) ∧
      (∀ c ∈ (RagChat.clean_text s).data, ctrlChar c = false ∧ spinnerChar c = false) ∧
      (∀ c ∈ (Ingest.clean_text s).data, ctrlChar c = false ∧ spinnerChar c = false) := by
  intro s
  refine ⟨fun h => ?_, fun h => ?_, fun c hc => ?_, fun c hc => ?_⟩
  · have := (List.mem_filter.mp (mem_pyStrip h)).2
    simp at this
  · have := (mem_cleanCore (mem_pyStrip h)).1
    exact absurd (by decide : ctrlChar '\x00' = true) (by simp [this])
  · exact mem_cleanCore (mem_pyStrip hc)
  · exact mem_cleanCore (List.mem_filter.mp (mem_pyStrip hc)).1

/-- `C8` witness: the amended theorem applied at the concrete input
`"a\rb"`. -/
theorem C8_witness :
    '\r' ∉ (Ingest.clean_text "a\rb").data ∧
    '\x00' ∉ (RagChat.clean_text "a\rb").data :=
  ⟨(C8_clean_text_no_cr "a\rb").1, (C8_clean_text_no_cr "a\rb").2.1⟩

/-! ## The noise classifier `NOISE_RE.search`

`NOISE_RE` anchors at the string start or right after a newline, skips
whitespace, and then requires one of the alternatives
`Topic:`, `CREATOR:`, `MEDIATOR:`, `REVIEWER:`, `=== Turn`, a
`[YYYY-MM-DDT` timestamp opening, `Thinking...`, `BEGIN`, `END`, `<<`,
`>>`, `[llama`, or a raw ESC byte — all case-insensitive
(`re.IGNORECASE`). -/

/-- Case-insensitive literal match at the head of the input (`lit` is
stored lowercase; the source literals are ASCII). -/
def litAt (lit cs : List Char) : Bool :=
  (cs.take lit.length).map Char.toLower == lit

/-- The timestamp alternative: a bracket, four digits, a hyphen, two
digits, a hyphen, two digits, then the letter T (case-insensitive). -/
def tsAt : List Char → Bool
  | '[' :: a :: b :: c :: d :: '-' :: e :: f :: '-' :: g :: h :: t :: _ =>
    a.isDigit && b.isDigit && c.isDigit && d.isDigit && e.isDigit &&
    f.isDigit && g.isDigit && h.isDigit && (t.toLower == 't')
  | _ => false

/-- Some `NOISE_RE` alternative matches at this position. -/
def noiseAltAt (cs : List Char) : Bool :=
  litAt "topic:".data cs || litAt "creator:".data cs ||
  litAt "mediator:".data cs || litAt "reviewer:".data cs ||
  litAt "=== turn".data cs || tsAt cs ||
  litAt "thinking...".data cs || litAt "begin".data cs ||
  litAt "end".data cs || litAt "<<".data cs || litAt ">>".data cs ||
  litAt "[llama".data cs ||
  (match cs with | c :: _ => c == '\x1b' | [] => false)

/-- Match the fragment after the anchor: any amount of whitespace, then
an alternative.  The whitespace star backtracks, so a match exists iff
the alternative fires after some prefix of the whitespace run. -/
def noiseFrom : List Char → Bool
  | [] => false
  | c :: rest => noiseAltAt (c :: rest) || (isPySpace c && noiseFrom rest)

/-- Try the fragment right after every newline of the input. -/
def noiseAfterNl : List Char → Bool
  | [] => false
  | c :: rest => (c == '\n' && noiseFrom rest) || noiseAfterNl rest

/-- `NOISE_RE.search(s)` succeeds (the anchor is the string start —
the pattern is compiled without `re.MULTILINE`, so the caret only
matches at position zero — or a position right after a newline). -/
def noiseSearch (s : String) : Bool := noiseFrom s.data || noiseAfterNl s.data

/-! ## Lowercasing, substring containment, block terms -/

/-- `str.lower()` (ASCII case folding; the block terms and stored
texts concerned are ASCII). -/
def strLower (s : String) : String := ⟨s.data.map Char.toLower⟩

theorem strLower_eq_empty_iff (s : String) : strLower s = "" ↔ s = "" := by
  constructor <;> intro h
  · rcases s with ⟨data⟩
    have hd : data.map Char.toLower = [] := congrArg String.data h
    rw [List.map_eq_nil_iff] at hd
    rw [hd]
  · rw [h]
    rfl

/-- Python substring containment: `needle in hay`. -/
def substrHit (needle : List Char) : List Char → Bool
  | [] => needle.isEmpty
  | c :: rest => needle == (c :: rest).take needle.length || substrHit needle rest

/-- Python `str.startswith`. -/
def startsWithL (pre cs : List Char) : Bool := pre == cs.take pre.length

/-- The effective lowercased block list of `rag_chat.recall`: the
union of the per-call `block_terms` and the process-wide
`DEFAULT_BLOCK_TERMS`, lowercased, with empty strings dropped.  The
source builds a Python set; the set is consumed only by an `any`
membership test, so duplicates and order are irrelevant and a list is
a faithful model. -/
def blockList (block_terms default_block_terms : List String) : List String :=
  ((block_terms ++ default_block_terms).map strLower).filter (fun b => !(b == ""))

/-! ## The memory store -/

/-- One row of the `public.contexts` table.  The serial `id` column is
a `Nat`; the pgvector `embedding` column is the rational vector itself
(the decimal string literal serialization of the source is transparent
to every property considered here). -/
structure MemoryRecord where
  id : Nat
  session_id : String
  role : String
  text : String
  embedding : List ℚ
deriving DecidableEq

/-- A row of the SQL result of `rag_chat.recall`: role, text,
distance. -/
abbrev RecallRow := String × String × ℚ

/-- Ascending-distance comparison on recall rows. -/
def rowLe (a b : RecallRow) : Prop := a.2.2 ≤ b.2.2

instance : DecidableRel rowLe := fun a b =>
  inferInstanceAs (Decidable (a.2.2 ≤ b.2.2))

instance : IsTotal RecallRow rowLe := ⟨fun a b => le_total a.2.2 b.2.2⟩

instance : IsTrans RecallRow rowLe := ⟨fun _ _ _ => le_trans⟩

namespace RagChat

/-- The sentinel prefix `remember` rejects. -/
def modelErrorSentinel : String := "(model error)"

/-- `rag_chat.remember`: clean the text; return `None` (no write) on a
model-error sentinel prefix, empty cleaned text, or a noise match;
otherwise embed the cleaned text and insert a record, returning its
fresh id.  The database's serial id is modelled by the store length;
the session id (the source reads the process-wide `SESSION_ID`) and
the embedder are explicit parameters. -/
def remember (encode : String → List ℚ) (session_id role : String)
    (text : String) (store : List MemoryRecord) :
    Option Nat × List MemoryRecord :=
  let t := clean_text text
  if startsWithL modelErrorSentinel.data t.data then (none, store)
  else if t == "" then (none, store)
  else if noiseSearch t then (none, store)
  else
    (some store.length,
      store ++ [⟨store.length, session_id, role, t, encode t⟩])

/-- The SQL stage of `rag_chat.recall`: select role, text and cosine
distance for the session's records, order by ascending distance, limit
to the 6k overfetch.  The stable `insertionSort` fixes the
implementation-defined tie order deterministically (store order). -/
def recallRows (store : List MemoryRecord) (dist : List ℚ → List ℚ → ℚ)
    (qvec : List ℚ) (session_id : String) (k : Nat) : List RecallRow :=
  (List.insertionSort rowLe
    ((store.filter (fun r => r.session_id == session_id)).map
      (fun r => (r.role, r.text, dist r.embedding qvec)))).take (k * 6)

/-- The Python-side filter of `rag_chat.recall`: keep rows whose
distance does not exceed the similarity gate, whose text is non-empty
and not noise, and whose lowercased text contains no blocked term. -/
def recallKept (store : List MemoryRecord) (dist : List ℚ → List ℚ → ℚ)
    (qvec : List ℚ) (session_id : String) (k : Nat) (minSim : ℚ)
    (block_lc : List String) : List RecallRow :=
  (recallRows store dist qvec session_id k).filter (fun row =>
    decide (row.2.2 ≤ minSim) && !(row.2.1 == "") && !(noiseSearch row.2.1) &&
    !(block_lc.any (fun bt => substrHit bt.data (strLower row.2.1).data)))

/-- `rag_chat.recall`: embed the query (the raw query — `clean_text`
is not applied to it), fetch and filter candidates, re-sort ascending
by distance, and return the first `k` as role–text pairs. -/
def «recall» (store : List MemoryRecord) (dist : List ℚ → List ℚ → ℚ)
    (encode : String → List ℚ) (minSim : ℚ)
    (default_block_terms : List String) (session_id query : String)
    (k : Nat) (block_terms : List String) : List (String × String) :=
  let block_lc := blockList block_terms default_block_terms
  let qvec := encode query
  let kept := recallKept store dist qvec session_id k minSim block_lc
  ((List.insertionSort rowLe kept).take k).map (fun row => (row.1, row.2.1))

end RagChat

namespace MemoryChat

/-- `memory_chat.remember`: unconditional insert returning the fresh
id.  No cleaning, no validation of `session_id`, no noise filtering. -/
def remember (encode : String → List ℚ) (session_id role text : String)
    (store : List MemoryRecord) : Nat × List MemoryRecord :=
  (store.length,
    store ++ [⟨store.length, session_id, role, text, encode text⟩])

/-- `memory_chat.recall`: the k nearest records of the session by
ascending embedding distance, as id–role–text triples; no similarity
gate and no filtering. -/
def «recall» (store : List MemoryRecord) (dist : List ℚ → List ℚ → ℚ)
    (encode : String → List ℚ) (session_id query : String) (k : Nat) :
    List (Nat × String × String) :=
  let q := encode query
  ((List.insertionSort (fun a b : Nat × String × String × ℚ => a.2.2.2 ≤ b.2.2.2)
    ((store.filter (fun r => r.session_id == session_id)).map
      (fun r => (r.id, r.role, r.text, dist r.embedding q)))).take k).map
    (fun row => (row.1, row.2.1, row.2.2.1))

end MemoryChat

namespace Ingest

/-- Rows of one batch insert, assigned consecutive serial ids as the
database does for `execute_values`. -/
def rowsFrom (idStart : Nat) (session role : String) :
    List (String × List ℚ) → List MemoryRecord
  | [] => []
  | (t, e) :: rest =>
    ⟨idStart, session, role, t, e⟩ :: rowsFrom (idStart + 1) session role rest

/-- The per-batch dimension check and insert of `ingest.main`: the
source iterates over the batch embeddings and raises `ValueError` on
the first wrong-length vector, before any row is inserted; `none`
models the raised error (no record created), `some` the committed
store. -/
def batchInsert (session role : String) (texts : List String)
    (embs : List (List ℚ)) (store : List MemoryRecord) :
    Option (List MemoryRecord) :=
  if embs.all (fun e => e.length == EMB_DIM) then
    some (store ++ rowsFrom store.length session role (texts.zip embs))
  else none

end Ingest

/-! ## Structure of `recall` results -/

theorem ragChat_kept_subset {store : List MemoryRecord}
    {dist : List ℚ → List ℚ → ℚ} {qvec : List ℚ} {sid : String} {k : Nat}
    {minSim : ℚ} {block_lc : List String} {row : RecallRow}
    (h : row ∈ RagChat.recallKept store dist qvec sid k minSim block_lc) :
    (∃ r, r ∈ store ∧ r.session_id = sid ∧
      row = (r.role, r.text, dist r.embedding qvec)) ∧
    row.2.2 ≤ minSim ∧
    (∀ bt ∈ block_lc, substrHit bt.data (strLower row.2.1).data = false) := by
  unfold RagChat.recallKept at h
  rw [List.mem_filter] at h
  obtain ⟨hrow, hpred⟩ := h
  simp only [Bool.and_eq_true, Bool.not_eq_true'] at hpred
  obtain ⟨⟨⟨hgate, _⟩, _⟩, hblock⟩ := hpred
  refine ⟨?_, of_decide_eq_true hgate, ?_⟩
  · unfold RagChat.recallRows at hrow
    have h1 := List.mem_of_mem_take hrow
    have h2 := (List.perm_insertionSort rowLe _).mem_iff.mp h1
    rw [List.mem_map] at h2
    obtain ⟨r, hr, he⟩ := h2
    rw [List.mem_filter] at hr
    exact ⟨r, hr.1, by simpa using hr.2, he.symm⟩
  · intro bt hbt
    have := List.any_eq_false.mp hblock bt hbt
    simpa using this

theorem ragChat_recall_mem_kept {store : List MemoryRecord}
    {dist : List ℚ → List ℚ → ℚ} {encode : String → List ℚ} {minSim : ℚ}
    {defb : List String} {sid query : String} {k : Nat} {bts : List String}
    {p : String × String}
    (hp : p ∈ RagChat.recall store dist encode minSim defb sid query k bts) :
    ∃ row, row ∈ RagChat.recallKept store dist (encode query) sid k minSim
        (blockList bts defb) ∧ p = (row.1, row.2.1) := by
  simp only [RagChat.recall] at hp
  rw [List.mem_map] at hp
  obtain ⟨row, hrow, he⟩ := hp
  have h1 := List.mem_of_mem_take hrow
  have h2 := (List.perm_insertionSort rowLe _).mem_iff.mp h1
  exact ⟨row, h2, he.symm⟩

theorem ragChat_recall_provenance :
    ∀ (store : List MemoryRecord) (dist : List ℚ → List ℚ → ℚ)
      (encode : String → List ℚ) (minSim : ℚ) (defb : List String)
      (sid query : String) (k : Nat) (bts : List String),
      ∀ p ∈ RagChat.recall store dist encode minSim defb sid query k bts,
        ∃ r, r ∈ store ∧ r.session_id = sid ∧ p = (r.role, r.text) := by
  intro store dist encode minSim defb sid query k bts p hp
  obtain ⟨row, hrow, he⟩ := ragChat_recall_mem_kept hp
  obtain ⟨⟨r, hr, hsid, heq⟩, -, -⟩ := ragChat_kept_subset hrow
  exact ⟨r, hr, hsid, by rw [he, heq]⟩

theorem memoryChat_recall_provenance :
    ∀ (store : List MemoryRecord) (dist : List ℚ → List ℚ → ℚ)
      (encode : String → List ℚ) (sid query : String) (k : Nat),
      ∀ p ∈ MemoryChat.recall store dist encode sid query k,
        ∃ r, r ∈ store ∧ r.session_id = sid ∧ p = (r.id, r.role, r.text) := by
  intro store dist encode sid query k p hp
  simp only [MemoryChat.recall] at hp
  rw [List.mem_map] at hp
  obtain ⟨row, hrow, he⟩ := hp
  have h1 := List.mem_of_mem_take hrow
  have h2 := (List.perm_insertionSort _ _).mem_iff.mp h1
  rw [List.mem_map] at h2
  obtain ⟨r, hr, he2⟩ := h2
  rw [List.mem_filter] at hr
  refine ⟨r, hr.1, by simpa using hr.2, ?_⟩
  rw [← he, ← he2]

/-- `C1`: `recall` returns at most `k` role–text pairs, and its result
is exactly the projection of the kept candidates re-sorted ascending
by distance and truncated to `k`; every candidate surviving the filter
has distance within the similarity gate `MIN_SIM` (hence with
`MIN_SIM = 0.35` a record at distance `0.5` is never returned, for any
`k`), and when nothing survives filtering the result is the empty
list, not an error. -/
theorem C1_recall_gate_sorted_topk :
    ∀ (store : List MemoryRecord) (dist : List ℚ → List ℚ → ℚ)
      (encode : String → List ℚ) (minSim : ℚ) (defb : List String)
      (sid query : String) (k : Nat) (bts : List String),
      (RagChat.recall store dist encode minSim defb sid query k bts).length ≤ k ∧
      RagChat.recall store dist encode minSim defb sid query k bts
        = ((List.insertionSort rowLe (RagChat.recallKept store dist
            (encode query) sid k minSim (blockList bts defb))).take k).map
            (fun row => (row.1, row.2.1)) ∧
      List.Sorted rowLe ((List.insertionSort rowLe (RagChat.recallKept store dist
            (encode query) sid k minSim (blockList bts defb))).take k) ∧
      (∀ row ∈ (List.insertionSort rowLe (RagChat.recallKept store dist
            (encode query) sid k minSim (blockList bts defb))).take k,
        row.2.2 ≤ minSim) ∧
      (RagChat.recallKept store dist (encode query) sid k minSim
          (blockList bts defb) = [] →
        RagChat.recall store dist encode minSim defb sid query k bts = []) := by
  intro store dist encode minSim defb sid query k bts
  have h2 : RagChat.recall store dist encode minSim defb sid query k bts
      = ((List.insertionSort rowLe (RagChat.recallKept store dist
          (encode query) sid k minSim (blockList bts defb))).take k).map
          (fun row => (row.1, row.2.1)) := rfl
  refine ⟨?_, h2, ?_, ?_, ?_⟩
  · rw [h2, List.length_map, List.length_take]
    exact min_le_left _ _
  · exact List.Pairwise.sublist (List.take_sublist _ _)
      (List.sorted_insertionSort rowLe _)
  · intro row hrow
    have h1 := List.mem_of_mem_take hrow
    have hk := (List.perm_insertionSort rowLe _).mem_iff.mp h1
    exact (ragChat_kept_subset hk).2.1
  · intro hkept
    rw [h2, hkept]
    simp

/-- `C1` witness: the shape theorem applied at a concrete store and
query (a single in-gate record, `k = 1`). -/
theorem C1_witness :
    (RagChat.recall [⟨0, "s", "user", "hi", [(1 : ℚ)]⟩]
      (fun u v => if u == v then 0 else 1) (fun _ => [(1 : ℚ)])
      1 [] "s" "q" 1 []).length ≤ 1 :=
  (C1_recall_gate_sorted_topk [⟨0, "s", "user", "hi", [(1 : ℚ)]⟩]
    (fun u v => if u == v then 0 else 1) (fun _ => [(1 : ℚ)])
    1 [] "s" "q" 1 []).1

/-- `C4`: session isolation — every pair returned by `rag_chat.recall`
for session `A` originates from a record stored with `session_id = A`
(likewise every triple returned by `memory_chat.recall`), so a record
stored under any other session `B` is never returned. -/
theorem C4_session_isolation :
    (∀ (store : List MemoryRecord) (dist : List ℚ → List ℚ → ℚ)
        (encode : String → List ℚ) (minSim : ℚ) (defb : List String)
        (A query : String) (k : Nat) (bts : List String),
      ∀ p ∈ RagChat.recall store dist encode minSim defb A query k bts,
        ∃ r, r ∈ store ∧ r.session_id = A ∧ p = (r.role, r.text)) ∧
    (∀ (store : List MemoryRecord) (dist : List ℚ → List ℚ → ℚ)
        (encode : String → List ℚ) (A query : String) (k : Nat),
      ∀ p ∈ MemoryChat.recall store dist encode A query k,
        ∃ r, r ∈ store ∧ r.session_id = A ∧ p = (r.id, r.role, r.text)) :=
  ⟨ragChat_recall_provenance, memoryChat_recall_provenance⟩

/-- `C4` witness: the isolation theorem applied to a two-session store
— the pair returned for session `"A"` comes from an `"A"` record. -/
theorem C4_witness :
    ∃ r, r ∈ [(⟨0, "A", "user", "hi", [(1 : ℚ)]⟩ : MemoryRecord),
              ⟨1, "B", "user", "yo", [(1 : ℚ)]⟩] ∧
      r.session_id = "A" ∧ (("user", "hi") : String × String) = (r.role, r.text) :=
  C4_session_isolation.1
    [⟨0, "A", "user", "hi", [(1 : ℚ)]⟩, ⟨1, "B", "user", "yo", [(1 : ℚ)]⟩]
    (fun u v => if u == v then 0 else 1) (fun _ => [(1 : ℚ)])
    1 [] "A" "q" 2 [] ("user", "hi") (by decide)

/-- `C7`: block-term exclusion — no returned pair's lowercased text
contains any non-empty term of `block_terms` or of the default block
list; concretely, a record containing the substring `politics` is
excluded under `block_terms = ["politics"]` even though it is the
closest match, yet is returned (as the closest match) under
`block_terms = []`. -/
theorem C7_block_term_exclusion :
    (∀ (store : List MemoryRecord) (dist : List ℚ → List ℚ → ℚ)
        (encode : String → List ℚ) (minSim : ℚ) (defb : List String)
        (sid query : String) (k : Nat) (bts : List String),
      ∀ p ∈ RagChat.recall store dist encode minSim defb sid query k bts,
        ∀ b ∈ bts ++ defb, ¬(b = "") →
          substrHit (strLower b).data (strLower p.2).data = false) ∧
    RagChat.recall
      [⟨0, "s", "assistant", "I follow politics closely", [(1 : ℚ)]⟩,
       ⟨1, "s", "user", "cats are nice", [(2 : ℚ)]⟩]
      (fun u v => if u == v then 0 else 1)
      (fun _ => [(1 : ℚ)]) 1 [] "s" "q" 1 ["politics"]
      = [("user", "cats are nice")] ∧
    RagChat.recall
      [⟨0, "s", "assistant", "I follow politics closely", [(1 : ℚ)]⟩,
       ⟨1, "s", "user", "cats are nice", [(2 : ℚ)]⟩]
      (fun u v => if u == v then 0 else 1)
      (fun _ => [(1 : ℚ)]) 1 [] "s" "q" 1 []
      = [("assistant", "I follow politics closely")] := by
  refine ⟨?_, by decide, by decide⟩
  intro store dist encode minSim defb sid query k bts p hp b hb hbne
  obtain ⟨row, hrow, he⟩ := ragChat_recall_mem_kept hp
  have hblock := (ragChat_kept_subset hrow).2.2
  have hmem : strLower b ∈ blockList bts defb := by
    unfold blockList
    rw [List.mem_filter]
    refine ⟨List.mem_map_of_mem strLower hb, ?_⟩
    simp only [Bool.not_eq_true', beq_eq_false_iff_ne, ne_eq]
    intro hlow
    exact hbne ((strLower_eq_empty_iff b).mp hlow)
  have := hblock (strLower b) hmem
  rw [he]
  exact this

/-- `C7` witness: the exclusion theorem applied at the concrete
politics store. -/
theorem C7_witness :
    substrHit (strLower "politics").data
      (strLower (("user", "cats are nice") : String × String).2).data = false :=
  C7_block_term_exclusion.1
    [⟨0, "s", "assistant", "I follow politics closely", [(1 : ℚ)]⟩,
     ⟨1, "s", "user", "cats are nice", [(2 : ℚ)]⟩]
    (fun u v => if u == v then 0 else 1)
    (fun _ => [(1 : ℚ)]) 1 [] "s" "q" 1 ["politics"]
    ("user", "cats are nice") (by decide) "politics" (by decide) (by decide)

/-! ## Rejection behaviour of `remember` -/

/-- `C3`: `rag_chat.remember` returns `None` and leaves the store
unchanged exactly when the cleaned text is empty, begins with the
model-error sentinel, or matches the noise pattern; in particular the
pure-NUL input and the turn-marker/role-header text are rejected with
no write. -/
theorem C3_remember_reject_trichotomy :
    (∀ (encode : String → List ℚ) (sid role text : String)
        (store : List MemoryRecord),
      RagChat.remember encode sid role text store = (none, store) ↔
        (RagChat.clean_text text = "" ∨
         startsWithL RagChat.modelErrorSentinel.data
           (RagChat.clean_text text).data = true ∨
         noiseSearch (RagChat.clean_text text) = true)) ∧
    (∀ (encode : String → List ℚ) (sid role : String)
        (store : List MemoryRecord),
      RagChat.remember encode sid role "\x00\x00" store = (none, store) ∧
      RagChat.remember encode sid role "=== Turn 3 ===\nCREATOR: plan details"
        store = (none, store)) := by
  constructor
  · intro encode sid role text store
    simp only [RagChat.remember]
    by_cases h1 : startsWithL RagChat.modelErrorSentinel.data
        (RagChat.clean_text text).data = true
    · simp [h1]
    · rw [if_neg h1]
      by_cases h2 : RagChat.clean_text text = ""
      · simp [h1, h2]
      · rw [if_neg (by simpa using h2)]
        by_cases h3 : noiseSearch (RagChat.clean_text text) = true
        · simp [h1, h2, h3]
        · rw [if_neg h3]
          simp [h1, h2, h3]
  · intro encode sid role store
    constructor
    · simp only [RagChat.remember]
      rw [if_neg (by decide), if_pos (by decide)]
    · simp only [RagChat.remember]
      rw [if_neg (by decide), if_neg (by decide), if_pos (by decide)]

/-- `C3` witness: the rejection theorem applied at the pure-NUL
input. -/
theorem C3_witness :
    RagChat.remember (fun _ => [(1 : ℚ)]) "s1" "user" "\x00\x00" [] = (none, []) :=
  (C3_remember_reject_trichotomy.2 (fun _ => [(1 : ℚ)]) "s1" "user" []).1

/-! ## The dimension check -/

theorem mem_rowsFrom : ∀ (idStart : Nat) (session role : String)
    (l : List (String × List ℚ)) (r : MemoryRecord),
    r ∈ Ingest.rowsFrom idStart session role l → ∃ te, te ∈ l ∧ r.embedding = te.2
  | _, _, _, [], r, h => by simp [Ingest.rowsFrom] at h
  | idStart, session, role, (t, e) :: rest, r, h => by
    rw [Ingest.rowsFrom] at h
    rcases List.mem_cons.mp h with h | h
    · exact ⟨(t, e), by simp, by rw [h]⟩
    · obtain ⟨te, hte, hemb⟩ := mem_rowsFrom (idStart + 1) session role rest r h
      exact ⟨te, List.mem_cons_of_mem _ hte, hemb⟩

theorem ragChat_remember_store (encode : String → List ℚ)
    (sid role text : String) (store : List MemoryRecord) :
    (RagChat.remember encode sid role text store).2 = store ∨
    (RagChat.remember encode sid role text store).2
      = store ++ [⟨store.length, sid, role, RagChat.clean_text text,
                   encode (RagChat.clean_text text)⟩] := by
  simp only [RagChat.remember]
  split_ifs <;> simp

/-- `C2` counterexample: `rag_chat.remember` performs no dimension
check — with an embedder returning a length-1 vector it persists a
record whose embedding length differs from `EMB_DIM = 384`, so the
claimed pre-insert verification does not exist on the `remember`
path. -/
theorem C2_counterexample :
    ∃ r, r ∈ (RagChat.remember (fun _ => [(1 : ℚ)]) "s1" "user" "hello" []).2 ∧
      ¬(r.embedding.length = Ingest.EMB_DIM) :=
  ⟨⟨0, "s1", "user", "hello", [(1 : ℚ)]⟩, by decide, by decide⟩

/-- `C2` (amended): the dimension check lives on the ingest batch
path, not in `remember`: `ingest.main` fails (raising `ValueError` —
no `EmbeddingDimensionError` exists in the source) with no record
created whenever some embedding of the batch has the wrong length, and
otherwise inserts rows carrying exactly the embedder's vectors;
`rag_chat.remember` persists whatever vector the embedder returns, so
its records satisfy the dimension invariant exactly when the embedder
always produces `EMB_DIM`-length vectors. -/
theorem C2_dimension_check :
    (∀ (session role : String) (texts : List String)
        (embs : List (List ℚ)) (store : List MemoryRecord),
      (∃ e, e ∈ embs ∧ ¬(e.length = Ingest.EMB_DIM)) →
        Ingest.batchInsert session role texts embs store = none) ∧
    (∀ (session role : String) (texts : List String)
        (embs : List (List ℚ)) (store : List MemoryRecord),
      (∀ e ∈ embs, e.length = Ingest.EMB_DIM) →
      (∀ r ∈ store, r.embedding.length = Ingest.EMB_DIM) →
        ∃ s2, Ingest.batchInsert session role texts embs store = some s2 ∧
          ∀ r ∈ s2, r.embedding.length = Ingest.EMB_DIM) ∧
    (∀ (encode : String → List ℚ) (sid role text : String)
        (store : List MemoryRecord),
      (∀ t, (encode t).length = Ingest.EMB_DIM) →
      (∀ r ∈ store, r.embedding.length = Ingest.EMB_DIM) →
        ∀ r ∈ (RagChat.remember encode sid role text store).2,
          r.embedding.length = Ingest.EMB_DIM) := by
  refine ⟨?_, ?_, ?_⟩
  · intro session role texts embs store h
    obtain ⟨e, he, hlen⟩ := h
    unfold Ingest.batchInsert
    rw [if_neg]
    intro hall
    rw [List.all_eq_true] at hall
    exact hlen (by simpa using hall e he)
  · intro session role texts embs store hall hstore
    refine ⟨store ++ Ingest.rowsFrom store.length session role (texts.zip embs),
      ?_, ?_⟩
    · unfold Ingest.batchInsert
      rw [if_pos]
      rw [List.all_eq_true]
      intro e he
      simpa using hall e he
    · intro r hr
      rw [List.mem_append] at hr
      rcases hr with hr | hr
      · exact hstore r hr
      · obtain ⟨⟨t, e⟩, hte, hemb⟩ :=
          mem_rowsFrom store.length session role (texts.zip embs) r hr
        rw [hemb]
        exact hall e (List.of_mem_zip hte).2
  · intro encode sid role text store hdim hstore r hr
    rcases ragChat_remember_store encode sid role text store with hs | hs
    · rw [hs] at hr
      exact hstore r hr
    · rw [hs, List.mem_append] at hr
      rcases hr with hr | hr
      · exact hstore r hr
      · rw [List.mem_singleton] at hr
        rw [hr]
        exact hdim _

/-- `C2` witness: the amended theorem applied to a batch containing a
length-1 embedding (the insert fails, creating no record). -/
theorem C2_witness :
    Ingest.batchInsert "s" "user" ["a"] [[(1 : ℚ)]] [] = none :=
  C2_dimension_check.1 "s" "user" ["a"] [[(1 : ℚ)]] []
    ⟨[(1 : ℚ)], by decide, by decide⟩

/-! ## The query is embedded raw -/

/-- `C6` counterexample: `recall` does not apply the Text Normalizer
to the query — it embeds the raw query.  With an embedder that
distinguishes `"\x00a"` from its cleaned form `"a"`, `recall` on the
raw query and on the cleaned query return different results, which is
impossible had the similarity search used the embedding of the cleaned
query. -/
theorem C6_counterexample :
    RagChat.clean_text "\x00a" = "a" ∧
    ¬(RagChat.recall [⟨0, "s", "user", "hi", [(2 : ℚ)]⟩]
        (fun u v => if u == v then 0 else 1)
        (fun s => if s == "a" then [(1 : ℚ)] else [(2 : ℚ)])
        0 [] "s" "\x00a" 1 []
      = RagChat.recall [⟨0, "s", "user", "hi", [(2 : ℚ)]⟩]
        (fun u v => if u == v then 0 else 1)
        (fun s => if s == "a" then [(1 : ℚ)] else [(2 : ℚ)])
        0 [] "s" (RagChat.clean_text "\x00a") 1 []) :=
  ⟨by decide, by decide⟩

/-- `C6` (amended): `recall` embeds the raw query without applying the
Text Normalizer, and no noise or block filtering is applied to the
query itself: the result depends on the query only through its
embedding. -/
theorem C6_recall_embeds_raw_query :
    ∀ (store : List MemoryRecord) (dist : List ℚ → List ℚ → ℚ)
      (encode : String → List ℚ) (minSim : ℚ) (defb : List String)
      (sid q1 q2 : String) (k : Nat) (bts : List String),
      encode q1 = encode q2 →
      RagChat.recall store dist encode minSim defb sid q1 k bts
        = RagChat.recall store dist encode minSim defb sid q2 k bts := by
  intro store dist encode minSim defb sid q1 q2 k bts h
  simp only [RagChat.recall, h]

/-- `C6` witness: two distinct query strings with equal embeddings
give equal recall results. -/
theorem C6_witness :
    RagChat.recall [] (fun _ _ => 0) (fun _ => [(0 : ℚ)]) 0 [] "s" "x" 1 []
      = RagChat.recall [] (fun _ _ => 0) (fun _ => [(0 : ℚ)]) 0 [] "s" "y" 1 [] :=
  C6_recall_embeds_raw_query [] (fun _ _ => 0) (fun _ => [(0 : ℚ)])
    0 [] "s" "x" "y" 1 [] rfl

/-! ## Missing session-id validation -/

/-- `C9` counterexample: no empty-`session_id` validation exists —
with `session_id = ""`, `memory_chat.remember` performs the write
(returning id 0 and storing the record under the empty session id),
`rag_chat.remember` also persists, and `memory_chat.recall` performs
the search and returns the record stored under `""`. -/
theorem C9_counterexample :
    MemoryChat.remember (fun _ => [(0 : ℚ)]) "" "user" "hi" []
      = (0, [⟨0, "", "user", "hi", [(0 : ℚ)]⟩]) ∧
    (RagChat.remember (fun _ => [(0 : ℚ)]) "" "user" "hello" []).1 = some 0 ∧
    MemoryChat.recall [⟨0, "", "user", "hi", [(0 : ℚ)]⟩]
      (fun u v => if u == v then 0 else 1) (fun _ => [(0 : ℚ)]) "" "q" 5
      = [(0, "user", "hi")] :=
  ⟨by decide, by decide, by decide⟩

/-- `C9` (amended): neither `remember` nor `recall` validates
`session_id`: with the empty session id, `memory_chat.remember`
performs the insert — appending a record whose `session_id` is `""`
and returning its id — and `memory_chat.recall` performs the search,
returning only records stored under the empty session id. -/
theorem C9_no_session_validation :
    (∀ (encode : String → List ℚ) (role text : String)
        (store : List MemoryRecord),
      MemoryChat.remember encode "" role text store
        = (store.length,
           store ++ [⟨store.length, "", role, text, encode text⟩])) ∧
    (∀ (store : List MemoryRecord) (dist : List ℚ → List ℚ → ℚ)
        (encode : String → List ℚ) (query : String) (k : Nat),
      ∀ p ∈ MemoryChat.recall store dist encode "" query k,
        ∃ r, r ∈ store ∧ r.session_id = "" ∧ p = (r.id, r.role, r.text)) :=
  ⟨fun _ _ _ _ => rfl,
   fun store dist encode query k =>
     memoryChat_recall_provenance store dist encode "" query k⟩

/-- `C9` witness: the amended theorem applied at the empty session id
with a concrete store. -/
theorem C9_witness :
    ∃ r, r ∈ [(⟨0, "", "user", "hi", [(0 : ℚ)]⟩ : MemoryRecord)] ∧
      r.session_id = "" ∧
      ((0, "user", "hi") : Nat × String × String) = (r.id, r.role, r.text) :=
  C9_no_session_validation.2 [⟨0, "", "user", "hi", [(0 : ℚ)]⟩]
    (fun u v => if u == v then 0 else 1) (fun _ => [(0 : ℚ)]) "q" 5
    (0, "user", "hi") (by decide)

/-! ## Empty block terms are discarded -/

theorem blockList_filter_empty (bts defb : List String) :
    blockList (bts.filter (fun b => !(b == "")))
      (defb.filter (fun b => !(b == ""))) = blockList bts defb := by
  unfold blockList
  rw [← List.filter_append, List.filter_map, List.filter_map]
  congr 1
  rw [List.filter_filter]
  apply List.filter_congr
  intro b _
  by_cases hb : b = ""
  · subst hb
    rfl
  · have h1 : (b == "") = false := by simpa using hb
    have h2 : (strLower b == "") = false := by
      rw [beq_eq_false_iff_ne]
      exact fun hh => hb ((strLower_eq_empty_iff b).mp hh)
    simp [Function.comp, h1, h2]

/-- `C10`: empty strings among the block terms are discarded before
filtering — `recall` is unchanged when empty strings are removed from
both the per-call and the default block-term lists; in particular
`block_terms = [""]` does not exclude every candidate. -/
theorem C10_empty_block_terms_discarded :
    (∀ (store : List MemoryRecord) (dist : List ℚ → List ℚ → ℚ)
        (encode : String → List ℚ) (minSim : ℚ) (defb : List String)
        (sid query : String) (k : Nat) (bts : List String),
      RagChat.recall store dist encode minSim defb sid query k bts
        = RagChat.recall store dist encode minSim
            (defb.filter (fun b => !(b == ""))) sid query k
            (bts.filter (fun b => !(b == "")))) ∧
    RagChat.recall [⟨0, "s", "user", "hi", [(1 : ℚ)]⟩]
      (fun u v => if u == v then 0 else 1) (fun _ => [(1 : ℚ)])
      1 [] "s" "q" 1 [""] = [("user", "hi")] := by
  refine ⟨?_, by decide⟩
  intro store dist encode minSim defb sid query k bts
  simp only [RagChat.recall, blockList_filter_empty]

end Metaformers
